import Mathlib

/-!
# Verification of the go-arena allocation library

A shallow embedding of the go-arena repository (monotonic arena, typed slice
helpers, arena-backed byte buffer, arena pool), together with theorems that
settle the specification claims against the embedded code.

Machine addresses (`uintptr`, `unsafe.Pointer`) are modelled as `Nat`, with
address `0` standing for the nil pointer.  The bytes of process memory are a
function `Nat → Nat`.  The base addresses that the Go runtime hands out for
lazily materialized buffers (`make([]byte, n)` in `monotonicBuffer.alloc`) are
not computed by the library, so they enter the model as an oracle stream
`bases : Nat → Nat`: each materialization consumes `bases 0` and shifts the
stream.  `make` zeroes the fresh region, which the model reflects.
-/

/-- Memory after zeroing `len` bytes starting at address `lo`
(the `for i := range b { b[i] = 0 }` loop, and the zeroing done by `make`). -/
def memZero (mem : Nat → Nat) (lo len : Nat) : Nat → Nat :=
  fun a => if lo ≤ a ∧ a < lo + len then 0 else mem a

/-- The pad computed by the alignment loop in `monotonicBuffer.alloc`
(`for alignedPtr := addr; alignedPtr%alignment != 0; alignedPtr++`):
for `alignment ≥ 1` that loop adds the distance from `addr` up to the next
multiple of `alignment`, i.e. `(alignment - addr % alignment) % alignment`. -/
def alignPad (addr alignment : Nat) : Nat :=
  (alignment - addr % alignment) % alignment

/-- One backing buffer of a monotonic arena (`type monotonicBuffer`).
`ptr = none` models the nil base pointer before lazy materialization. -/
structure monotonicBuffer where
  ptr : Option Nat
  offset : Nat
  size : Nat
deriving DecidableEq, Repr

/-- `newMonotonicBuffer(size)`. -/
def newMonotonicBuffer (size : Nat) : monotonicBuffer :=
  { ptr := none, offset := 0, size := size }

/-- `availableBytes`: `s.size - s.offset` on `uintptr`.  In every reachable
state `offset ≤ size`, where truncated `Nat` subtraction agrees with the Go
unsigned subtraction. -/
def monotonicBuffer.availableBytes (s : monotonicBuffer) : Nat :=
  s.size - s.offset

/-- The lazy materialization at the top of `monotonicBuffer.alloc`:
`if s.ptr == nil { buf := make([]byte, s.size); s.ptr = ... }`.
A fresh base address is drawn from the oracle stream and the fresh region is
zeroed (as `make` does). -/
def monotonicBuffer.materialize (s : monotonicBuffer) (mem : Nat → Nat)
    (bases : Nat → Nat) : monotonicBuffer × (Nat → Nat) × (Nat → Nat) :=
  match s.ptr with
  | some _ => (s, mem, bases)
  | none =>
      ({ s with ptr := some (bases 0) },
       memZero mem (bases 0) s.size,
       fun i => bases (i + 1))

/-- `monotonicBuffer.alloc(size, alignment)`.  Returns the allocated address
(`none` = the `(nil, false)` failure), the updated buffer, the updated memory
and the remaining oracle stream. -/
def monotonicBuffer.alloc (s : monotonicBuffer) (size alignment : Nat)
    (mem : Nat → Nat) (bases : Nat → Nat) :
    Option Nat × monotonicBuffer × (Nat → Nat) × (Nat → Nat) :=
  let m := s.materialize mem bases
  let s1 := m.1
  let mem1 := m.2.1
  let bases1 := m.2.2
  let base := s1.ptr.getD 0
  let alignOffset := alignPad (base + s1.offset) alignment
  let allocSize := size + alignOffset
  if s1.availableBytes < allocSize then
    (none, s1, mem1, bases1)
  else
    let p := base + s1.offset + alignOffset
    (some p, { s1 with offset := s1.offset + allocSize }, memZero mem1 p size, bases1)

/-- `monotonicBuffer.reset`. -/
def monotonicBuffer.reset (s : monotonicBuffer) : monotonicBuffer :=
  if s.offset = 0 then s else { s with offset := 0 }

/-- `monotonicBuffer.release`. -/
def monotonicBuffer.release (s : monotonicBuffer) : monotonicBuffer :=
  { s with offset := 0, ptr := none }

/-- `type monotonicArena`. -/
structure monotonicArena where
  buffers : List monotonicBuffer
  peak : Nat
  minBufferSize : Nat
  initialBufferCount : Nat
deriving Repr

/-- `monotonicArena.len` (internal): the sum of all buffer offsets. -/
def monotonicArena.len (a : monotonicArena) : Nat :=
  (a.buffers.map monotonicBuffer.offset).sum

/-- The `for i := 0; i < len(a.buffers); i++` loop at the top of
`monotonicArena.Alloc`: try each buffer in order; buffers that fail keep their
mutations (lazy materialization).  Returns the result pointer, the updated
buffer list, memory and oracle stream. -/
def allocLoop (size alignment : Nat) :
    List monotonicBuffer → (Nat → Nat) → (Nat → Nat) →
    Option Nat × List monotonicBuffer × (Nat → Nat) × (Nat → Nat)
  | [], mem, bases => (none, [], mem, bases)
  | b :: rest, mem, bases =>
      let r := b.alloc size alignment mem bases
      match r.1 with
      | some p => (some p, r.2.1 :: rest, r.2.2.1, r.2.2.2)
      | none =>
          let rr := allocLoop size alignment rest r.2.2.1 r.2.2.2
          (rr.1, r.2.1 :: rr.2.1, rr.2.2.1, rr.2.2.2)

/-- `monotonicArena.Alloc(size, alignment)`.  A `none` result pointer models
the `panic("failed to allocate on newly created buffer")` branch. -/
def monotonicArena.Alloc (a : monotonicArena) (size alignment : Nat)
    (mem : Nat → Nat) (bases : Nat → Nat) :
    Option Nat × monotonicArena × (Nat → Nat) × (Nat → Nat) :=
  let r := allocLoop size alignment a.buffers mem bases
  match r.1 with
  | some p =>
      let a1 : monotonicArena := { a with buffers := r.2.1 }
      let currentLen := a1.len
      (some p,
       { a1 with peak := if currentLen > a1.peak then currentLen else a1.peak },
       r.2.2.1, r.2.2.2)
  | none =>
      -- No existing buffer had enough space: create a new one.
      let a1 : monotonicArena := { a with buffers := r.2.1 }
      let currentLen := a1.len
      let alignOffset :=
        if currentLen > 0 then alignPad currentLen alignment else 0
      let requiredSize := size + alignOffset
      let newBufferSize :=
        if requiredSize < a.minBufferSize then a.minBufferSize else requiredSize
      let nb := (newMonotonicBuffer newBufferSize).alloc size alignment r.2.2.1 r.2.2.2
      match nb.1 with
      | some p =>
          let a2 : monotonicArena := { a1 with buffers := a1.buffers ++ [nb.2.1] }
          let cl := a2.len
          (some p,
           { a2 with peak := if cl > a2.peak then cl else a2.peak },
           nb.2.2.1, nb.2.2.2)
      | none =>
          -- panic("failed to allocate on newly created buffer")
          (none, { a1 with buffers := a1.buffers ++ [nb.2.1] }, nb.2.2.1, nb.2.2.2)

/-- `monotonicArena.Reset`. -/
def monotonicArena.Reset (a : monotonicArena) : monotonicArena :=
  { a with buffers := a.buffers.map monotonicBuffer.reset }

/-- `monotonicArena.Release`. -/
def monotonicArena.Release (a : monotonicArena) : monotonicArena :=
  { a with buffers := a.buffers.map monotonicBuffer.release }

/-- `monotonicArena.Len`. -/
def monotonicArena.Len (a : monotonicArena) : Nat :=
  a.len

/-- `monotonicArena.Cap`. -/
def monotonicArena.Cap (a : monotonicArena) : Nat :=
  (a.buffers.map monotonicBuffer.size).sum

/-- `monotonicArena.Peak`. -/
def monotonicArena.Peak (a : monotonicArena) : Nat :=
  a.peak

/-- `NewMonotonicArena` after the options have been applied:
`minBufferSize` and `initialBufferCount` configured, then `initialBufferCount`
buffers of size `minBufferSize` appended. -/
def NewMonotonicArena (minBufferSize initialBufferCount : Nat) : monotonicArena :=
  { buffers := List.replicate initialBufferCount (newMonotonicBuffer minBufferSize),
    peak := 0,
    minBufferSize := minBufferSize,
    initialBufferCount := initialBufferCount }

/-! ## Basic lemmas about buffers and the alignment pad -/

lemma monotonicBuffer.reset_offset (b : monotonicBuffer) : b.reset.offset = 0 := by
  unfold monotonicBuffer.reset
  split
  · assumption
  · rfl

lemma monotonicBuffer.reset_size (b : monotonicBuffer) : b.reset.size = b.size := by
  unfold monotonicBuffer.reset
  split <;> rfl

lemma monotonicBuffer.reset_ptr (b : monotonicBuffer) : b.reset.ptr = b.ptr := by
  unfold monotonicBuffer.reset
  split <;> rfl

lemma alignPad_mod (addr n : Nat) (hn : 1 ≤ n) : (addr + alignPad addr n) % n = 0 := by
  unfold alignPad
  rcases Nat.eq_zero_or_pos (addr % n) with h | h
  · simp [h, Nat.mod_self, Nat.add_mod, Nat.mod_mod_of_dvd]
  · have hlt : addr % n < n := Nat.mod_lt _ (by omega)
    have hsub : (n - addr % n) % n = n - addr % n := Nat.mod_eq_of_lt (by omega)
    rw [hsub]
    have hdecomp : addr + (n - addr % n) = n * (addr / n) + n := by
      have := Nat.div_add_mod addr n
      omega
    rw [hdecomp]
    simp [Nat.mul_add_mod]

lemma alignPad_eq_zero (addr n : Nat) (h : addr % n = 0) :
    alignPad addr n = 0 := by
  unfold alignPad
  simp [h, Nat.mod_self]

lemma monotonicArena.Reset_len (a : monotonicArena) : a.Reset.len = 0 := by
  unfold monotonicArena.Reset monotonicArena.len
  simp only [List.map_map]
  apply List.sum_eq_zero
  intro x hx
  simp only [List.mem_map] at hx
  obtain ⟨b, _, hb⟩ := hx
  rw [← hb]
  exact b.reset_offset

lemma monotonicArena.Release_len (a : monotonicArena) : a.Release.len = 0 := by
  unfold monotonicArena.Release monotonicArena.len
  simp only [List.map_map]
  apply List.sum_eq_zero
  intro x hx
  simp only [List.mem_map] at hx
  obtain ⟨b, _, hb⟩ := hx
  rw [← hb]
  rfl

/-- C3: after `Reset`, `Len() = 0` while `Cap()` and `Peak()` are unchanged
(buffer count, configured sizes and base addresses preserved); after
`Release`, `Len() = 0` and `Peak()` is unchanged (base addresses dropped,
offsets zeroed). -/
theorem reset_release_frame (a : monotonicArena) :
    (a.Reset.Len = 0 ∧ a.Reset.Cap = a.Cap ∧ a.Reset.Peak = a.Peak ∧
     a.Reset.buffers.length = a.buffers.length ∧
     a.Reset.buffers.map monotonicBuffer.size = a.buffers.map monotonicBuffer.size ∧
     a.Reset.buffers.map monotonicBuffer.ptr = a.buffers.map monotonicBuffer.ptr) ∧
    (a.Release.Len = 0 ∧ a.Release.Peak = a.Peak ∧
     a.Release.buffers.map monotonicBuffer.ptr =
       List.replicate a.buffers.length none ∧
     a.Release.buffers.map monotonicBuffer.offset =
       List.replicate a.buffers.length 0) := by
  refine ⟨⟨a.Reset_len, ?_, rfl, ?_, ?_, ?_⟩, ⟨a.Release_len, rfl, ?_, ?_⟩⟩
  · unfold monotonicArena.Cap monotonicArena.Reset
    simp only [List.map_map]
    rw [show monotonicBuffer.size ∘ monotonicBuffer.reset = monotonicBuffer.size from
      funext monotonicBuffer.reset_size]
  · simp [monotonicArena.Reset]
  · unfold monotonicArena.Reset
    simp only [List.map_map]
    rw [show monotonicBuffer.size ∘ monotonicBuffer.reset = monotonicBuffer.size from
      funext monotonicBuffer.reset_size]
  · unfold monotonicArena.Reset
    simp only [List.map_map]
    rw [show monotonicBuffer.ptr ∘ monotonicBuffer.reset = monotonicBuffer.ptr from
      funext monotonicBuffer.reset_ptr]
  · unfold monotonicArena.Release
    simp only [List.map_map]
    rw [List.eq_replicate_iff]
    constructor
    · simp
    · intro x hx
      simp only [List.mem_map] at hx
      obtain ⟨b, _, hb⟩ := hx
      rw [← hb]
      rfl
  · unfold monotonicArena.Release
    simp only [List.map_map]
    rw [List.eq_replicate_iff]
    constructor
    · simp
    · intro x hx
      simp only [List.mem_map] at hx
      obtain ⟨b, _, hb⟩ := hx
      rw [← hb]
      rfl

/-! ## Shape lemmas for `monotonicBuffer.alloc` -/

lemma monotonicBuffer.alloc_of_ptr_some (s : monotonicBuffer) (base : Nat)
    (hs : s.ptr = some base) (size al : Nat) (mem bases : Nat → Nat) :
    s.alloc size al mem bases =
      (if s.availableBytes < size + alignPad (base + s.offset) al then
        (none, s, mem, bases)
      else
        (some (base + s.offset + alignPad (base + s.offset) al),
         { s with offset := s.offset + (size + alignPad (base + s.offset) al) },
         memZero mem (base + s.offset + alignPad (base + s.offset) al) size,
         bases)) := by
  unfold monotonicBuffer.alloc monotonicBuffer.materialize
  rw [hs]
  simp [hs]

lemma monotonicBuffer.alloc_of_ptr_none (s : monotonicBuffer)
    (hs : s.ptr = none) (size al : Nat) (mem bases : Nat → Nat) :
    s.alloc size al mem bases =
      (if s.size - s.offset < size + alignPad (bases 0 + s.offset) al then
        (none, { s with ptr := some (bases 0) }, memZero mem (bases 0) s.size,
         fun i => bases (i + 1))
      else
        (some (bases 0 + s.offset + alignPad (bases 0 + s.offset) al),
         { s with ptr := some (bases 0),
                  offset := s.offset + (size + alignPad (bases 0 + s.offset) al) },
         memZero (memZero mem (bases 0) s.size)
           (bases 0 + s.offset + alignPad (bases 0 + s.offset) al) size,
         fun i => bases (i + 1))) := by
  unfold monotonicBuffer.alloc monotonicBuffer.materialize
  rw [hs]
  simp [monotonicBuffer.availableBytes]

lemma memZero_apply_in (mem : Nat → Nat) (lo len a : Nat) (h1 : lo ≤ a)
    (h2 : a < lo + len) : memZero mem lo len a = 0 := by
  unfold memZero
  rw [if_pos ⟨h1, h2⟩]

/-- Postcondition of a successful buffer-level allocation: the returned
address is non-nil (given a non-nil base), aligned, and the `size` bytes at
it are zero in the resulting memory. -/
lemma monotonicBuffer.alloc_post (s : monotonicBuffer) (size al : Nat)
    (mem bases : Nat → Nat) (hal : 1 ≤ al)
    (hb : ∀ i, 0 < bases i) (hp : 0 < s.ptr.getD 1) :
    ∀ p, (s.alloc size al mem bases).1 = some p →
      0 < p ∧ p % al = 0 ∧
      ∀ i, i < size → (s.alloc size al mem bases).2.2.1 (p + i) = 0 := by
  intro p hpEq
  cases hptr : s.ptr with
  | some base =>
      rw [s.alloc_of_ptr_some base hptr] at hpEq ⊢
      rw [hptr] at hp
      simp only [Option.getD_some] at hp
      by_cases hc : s.availableBytes < size + alignPad (base + s.offset) al
      · rw [if_pos hc] at hpEq
        simp at hpEq
      · rw [if_neg hc] at hpEq ⊢
        simp only [Option.some.injEq] at hpEq
        subst hpEq
        refine ⟨by omega, alignPad_mod (base + s.offset) al hal, ?_⟩
        intro i hi
        exact memZero_apply_in _ _ _ _ (by omega) (by omega)
  | none =>
      rw [s.alloc_of_ptr_none hptr] at hpEq ⊢
      have hb0 : 0 < bases 0 := hb 0
      by_cases hc : s.size - s.offset < size + alignPad (bases 0 + s.offset) al
      · rw [if_pos hc] at hpEq
        simp at hpEq
      · rw [if_neg hc] at hpEq ⊢
        simp only [Option.some.injEq] at hpEq
        subst hpEq
        refine ⟨by omega, alignPad_mod (bases 0 + s.offset) al hal, ?_⟩
        intro i hi
        exact memZero_apply_in _ _ _ _ (by omega) (by omega)

/-- The oracle stream coming out of a buffer allocation is a suffix of the
stream going in: any pointwise predicate is preserved. -/
lemma monotonicBuffer.alloc_bases_pred (s : monotonicBuffer) (size al : Nat)
    (mem bases : Nat → Nat) (Q : Nat → Prop) (hb : ∀ i, Q (bases i)) :
    ∀ i, Q ((s.alloc size al mem bases).2.2.2 i) := by
  intro i
  cases hptr : s.ptr with
  | some base =>
      rw [s.alloc_of_ptr_some base hptr]
      split
      · exact hb i
      · exact hb i
  | none =>
      rw [s.alloc_of_ptr_none hptr]
      split
      · exact hb (i + 1)
      · exact hb (i + 1)

/-- The oracle stream surviving the buffer-scanning loop preserves any
pointwise predicate. -/
lemma allocLoop_bases_pred (size al : Nat) (Q : Nat → Prop) :
    ∀ (bs : List monotonicBuffer) (mem bases : Nat → Nat),
      (∀ i, Q (bases i)) →
      ∀ i, Q ((allocLoop size al bs mem bases).2.2.2 i) := by
  intro bs
  induction bs with
  | nil => intro mem bases h i; exact h i
  | cons b rest ih =>
      intro mem bases h i
      simp only [allocLoop]
      cases hr : (b.alloc size al mem bases).1 with
      | some q =>
          simp only [hr]
          exact b.alloc_bases_pred size al mem bases Q h i
      | none =>
          simp only [hr]
          exact ih _ _ (fun j => b.alloc_bases_pred size al mem bases Q h j) i

/-- Postcondition of a successful allocation served by the buffer-scanning
loop. -/
lemma allocLoop_post (size al : Nat) (hal : 1 ≤ al) :
    ∀ (bs : List monotonicBuffer) (mem bases : Nat → Nat),
      (∀ i, 0 < bases i) → (∀ b ∈ bs, 0 < b.ptr.getD 1) →
      ∀ p, (allocLoop size al bs mem bases).1 = some p →
        0 < p ∧ p % al = 0 ∧
        ∀ i, i < size → (allocLoop size al bs mem bases).2.2.1 (p + i) = 0 := by
  intro bs
  induction bs with
  | nil => intro mem bases _ _ p hp; simp [allocLoop] at hp
  | cons b rest ih =>
      intro mem bases hb hptr p hp
      simp only [allocLoop] at hp ⊢
      cases hr : (b.alloc size al mem bases).1 with
      | some q =>
          simp only [hr] at hp ⊢
          simp only [Option.some.injEq] at hp
          subst hp
          exact b.alloc_post size al mem bases hal hb
            (hptr b (List.mem_cons_self b rest)) q hr
      | none =>
          simp only [hr] at hp ⊢
          exact ih _ _
            (fun j => b.alloc_bases_pred size al mem bases (fun x => 0 < x) hb j)
            (fun c hc => hptr c (List.mem_cons_of_mem b hc)) p hp

/-- A freshly created buffer whose materialized base is a multiple of the
alignment always satisfies an allocation of at most its size. -/
lemma fresh_alloc_success (bsize size al : Nat)
    (mem bases : Nat → Nat) (h0 : bases 0 % al = 0) (hsz : size ≤ bsize) :
    ((newMonotonicBuffer bsize).alloc size al mem bases).1 =
      some (bases 0 + 0 + alignPad (bases 0 + 0) al) := by
  rw [(newMonotonicBuffer bsize).alloc_of_ptr_none rfl]
  have hpad : alignPad (bases 0 + 0) al = 0 := by
    apply alignPad_eq_zero
    simpa using h0
  rw [if_neg]
  simp only [newMonotonicBuffer]
  simp only [newMonotonicBuffer, hpad]
  omega

/-- C1: for every allocation request with `size ≥ 0` and `alignment ≥ 1` on a
monotonic arena, provided every base address the runtime hands out for a
backing buffer is non-nil and a multiple of the requested alignment (as
`make([]byte, n)` provides for the alignments Go types carry), `Alloc`
returns a non-nil pointer that is a multiple of `alignment`, and the `size`
bytes starting at that address are all zero immediately after the call. -/
theorem Alloc_nonnull_aligned_zeroed (a : monotonicArena) (size al : Nat)
    (mem bases : Nat → Nat) (hal : 1 ≤ al)
    (hb : ∀ i, 0 < bases i ∧ bases i % al = 0)
    (hptr : ∀ b ∈ a.buffers, 0 < b.ptr.getD 1) :
    ∃ p, (a.Alloc size al mem bases).1 = some p ∧ 0 < p ∧ p % al = 0 ∧
      ∀ i, i < size → (a.Alloc size al mem bases).2.2.1 (p + i) = 0 := by
  have hbpos : ∀ i, 0 < bases i := fun i => (hb i).1
  simp only [monotonicArena.Alloc]
  cases hr : (allocLoop size al a.buffers mem bases).1 with
  | some q =>
      simp only [hr]
      exact ⟨q, rfl,
        allocLoop_post size al hal a.buffers mem bases hbpos hptr q hr⟩
  | none =>
      simp only [hr]
      have hLb : ∀ i, 0 < (allocLoop size al a.buffers mem bases).2.2.2 i ∧
          (allocLoop size al a.buffers mem bases).2.2.2 i % al = 0 :=
        allocLoop_bases_pred size al (fun x => 0 < x ∧ x % al = 0)
          a.buffers mem bases hb
      have hLbpos : ∀ i, 0 < (allocLoop size al a.buffers mem bases).2.2.2 i :=
        fun i => (hLb i).1
      set L2 := (allocLoop size al a.buffers mem bases).2.2.1 with hL2
      set Lb := (allocLoop size al a.buffers mem bases).2.2.2 with hLb2
      set A := (if ({ a with buffers := (allocLoop size al a.buffers mem bases).2.1 } :
          monotonicArena).len > 0 then
          alignPad ({ a with buffers := (allocLoop size al a.buffers mem bases).2.1 } :
            monotonicArena).len al else 0) with hA
      set N := (if size + A < a.minBufferSize then a.minBufferSize else size + A) with hN
      have hsz : size ≤ N := by
        rw [hN]
        split <;> omega
      have hsucc := fresh_alloc_success N size al L2 Lb ((hLb 0).2) hsz
      simp only [hsucc]
      refine ⟨Lb 0 + 0 + alignPad (Lb 0 + 0) al, rfl, ?_⟩
      exact (newMonotonicBuffer N).alloc_post size al L2 Lb hal hLbpos
        (by simp [newMonotonicBuffer]) _ hsucc

/-- Witness for C1: a concrete allocation (`NewMonotonicArena(min=1024,count=1)`,
`Alloc(100, 4)`, runtime base addresses at 4096) satisfying all hypotheses. -/
theorem Alloc_nonnull_aligned_zeroed_witness :
    (1 ≤ 4) ∧
    (∃ p, ((NewMonotonicArena 1024 1).Alloc 100 4 (fun _ => 7) (fun _ => 4096)).1 =
        some p ∧ 0 < p ∧ p % 4 = 0 ∧
      ∀ i, i < 100 →
        ((NewMonotonicArena 1024 1).Alloc 100 4 (fun _ => 7)
          (fun _ => 4096)).2.2.1 (p + i) = 0) :=
  ⟨by decide,
   Alloc_nonnull_aligned_zeroed (NewMonotonicArena 1024 1) 100 4 (fun _ => 7)
     (fun _ => 4096) (by decide)
     (by
       intro i
       constructor
       · show 0 < 4096
         decide
       · show 4096 % 4 = 0
         decide)
     (by decide)⟩

/-- C2 is violated by the code: the `panic("failed to allocate on newly
created buffer")` branch of `monotonicArena.Alloc` is reachable.  With
`minBufferSize = 9`, one initial buffer, and an allocation `Alloc(9, 8)`, the
new buffer is created with size `max(9, 9 + 0) = 9` (the worst-case pad is
computed against the current total-in-use length `0`, contributing nothing),
but when the runtime materializes the fresh 9-byte buffer at an address `≡ 1
(mod 8)` — which Go's tiny allocator may return for a 9-byte noscan block —
the buffer-level allocation needs `9 + 7` bytes and fails, so `Alloc` panics
(result pointer `none` in the model). -/
theorem alloc_new_buffer_panic_reachable :
    ((NewMonotonicArena 9 1).Alloc 9 8 (fun _ => 0) (fun _ => 1)).1 = none := by
  decide

/-- Peak accounting of `monotonicArena.Alloc`: the peak never decreases, and
after a successful allocation it dominates the current length. -/
lemma monotonicArena.Alloc_peak (a : monotonicArena) (size al : Nat)
    (mem bases : Nat → Nat) :
    a.peak ≤ (a.Alloc size al mem bases).2.1.peak ∧
    ((a.Alloc size al mem bases).1.isSome = true →
      (a.Alloc size al mem bases).2.1.len ≤ (a.Alloc size al mem bases).2.1.peak) := by
  simp only [monotonicArena.Alloc]
  cases hr : (allocLoop size al a.buffers mem bases).1 with
  | some q =>
      simp only [hr]
      constructor
      · dsimp
        split <;> omega
      · intro _
        dsimp [monotonicArena.len]
        split <;> omega
  | none =>
      simp only [hr]
      set L2 := (allocLoop size al a.buffers mem bases).2.2.1 with hL2
      set Lb := (allocLoop size al a.buffers mem bases).2.2.2 with hLb2
      set A := (if ({ a with buffers := (allocLoop size al a.buffers mem bases).2.1 } :
          monotonicArena).len > 0 then
          alignPad ({ a with buffers := (allocLoop size al a.buffers mem bases).2.1 } :
            monotonicArena).len al else 0) with hA
      set N := (if size + A < a.minBufferSize then a.minBufferSize else size + A) with hN
      cases hnb : ((newMonotonicBuffer N).alloc size al L2 Lb).1 with
      | some q =>
          simp only [hnb]
          constructor
          · dsimp
            split <;> omega
          · intro _
            dsimp [monotonicArena.len]
            split <;> omega
      | none =>
          simp only [hnb]
          constructor
          · dsimp
            omega
          · intro hfalse
            simp at hfalse

/-- The observable operations of the `Arena` interface.  `Len`, `Cap` and
`Peak` are pure observers; `Alloc` may panic (modelled by `none`). -/
inductive ArenaOp where
  | allocOp (size alignment : Nat)
  | resetOp
  | releaseOp
  | lenOp
  | capOp
  | peakOp
deriving DecidableEq, Repr

/-- The full state an arena operation acts on: the arena, process memory,
and the runtime's base-address oracle. -/
structure ArenaWorld where
  arena : monotonicArena
  mem : Nat → Nat
  bases : Nat → Nat

/-- One operation of the `Arena` interface on a monotonic arena.  The `none`
result models the panic in `monotonicArena.Alloc`. -/
def stepOp (op : ArenaOp) (w : ArenaWorld) : Option ArenaWorld :=
  match op with
  | .allocOp size alignment =>
      let r := w.arena.Alloc size alignment w.mem w.bases
      match r.1 with
      | some _ => some { arena := r.2.1, mem := r.2.2.1, bases := r.2.2.2 }
      | none => none
  | .resetOp => some { w with arena := w.arena.Reset }
  | .releaseOp => some { w with arena := w.arena.Release }
  | .lenOp => some w
  | .capOp => some w
  | .peakOp => some w

/-- C4: `Peak` is monotonic non-decreasing across every operation of the
interface, the invariant `Peak ≥ Len` is preserved by every operation, and it
holds of a freshly constructed arena (hence after every operation of any
sequence starting from `NewMonotonicArena`). -/
theorem peak_monotone_and_ge_len (op : ArenaOp) (w : ArenaWorld)
    (h : (stepOp op w).isSome = true) :
    w.arena.Peak ≤ ((stepOp op w).getD w).arena.Peak ∧
    (w.arena.Len ≤ w.arena.Peak →
      ((stepOp op w).getD w).arena.Len ≤ ((stepOp op w).getD w).arena.Peak) ∧
    (∀ m c, (NewMonotonicArena m c).Len ≤ (NewMonotonicArena m c).Peak) := by
  refine ?_
  have hnew : ∀ m c, (NewMonotonicArena m c).Len ≤ (NewMonotonicArena m c).Peak := by
    intro m c
    simp [NewMonotonicArena, monotonicArena.Len, monotonicArena.len,
      monotonicArena.Peak, newMonotonicBuffer, List.map_replicate]
  cases op with
  | allocOp size alignment =>
      have hp := w.arena.Alloc_peak size alignment w.mem w.bases
      simp only [stepOp]
      cases hr : (w.arena.Alloc size alignment w.mem w.bases).1 with
      | some q =>
          simp only [hr, Option.getD_some]
          refine ⟨hp.1, fun _ => hp.2 (by rw [hr]; rfl), hnew⟩
      | none =>
          simp only [stepOp, hr] at h
          simp at h
  | resetOp =>
      simp only [stepOp, Option.getD_some]
      refine ⟨le_refl _, fun _ => ?_, hnew⟩
      show w.arena.Reset.Len ≤ w.arena.Reset.Peak
      have := w.arena.Reset_len
      simp only [monotonicArena.Len, this]
      exact Nat.zero_le _
  | releaseOp =>
      simp only [stepOp, Option.getD_some]
      refine ⟨le_refl _, fun _ => ?_, hnew⟩
      show w.arena.Release.Len ≤ w.arena.Release.Peak
      have := w.arena.Release_len
      simp only [monotonicArena.Len, this]
      exact Nat.zero_le _
  | lenOp =>
      simp only [stepOp, Option.getD_some]
      exact ⟨le_refl _, fun hl => hl, hnew⟩
  | capOp =>
      simp only [stepOp, Option.getD_some]
      exact ⟨le_refl _, fun hl => hl, hnew⟩
  | peakOp =>
      simp only [stepOp, Option.getD_some]
      exact ⟨le_refl _, fun hl => hl, hnew⟩

/-- Witness for C4 at a concrete operation (`Reset` on a fresh arena). -/
theorem peak_monotone_and_ge_len_witness :
    (stepOp ArenaOp.resetOp
        ⟨NewMonotonicArena 16 1, fun _ => 0, fun _ => 16⟩).isSome = true ∧
    ((⟨NewMonotonicArena 16 1, fun _ => 0, fun _ => 16⟩ : ArenaWorld).arena.Peak ≤
        ((stepOp ArenaOp.resetOp
            ⟨NewMonotonicArena 16 1, fun _ => 0, fun _ => 16⟩).getD
          ⟨NewMonotonicArena 16 1, fun _ => 0, fun _ => 16⟩).arena.Peak ∧
      ((⟨NewMonotonicArena 16 1, fun _ => 0, fun _ => 16⟩ : ArenaWorld).arena.Len ≤
          (⟨NewMonotonicArena 16 1, fun _ => 0, fun _ => 16⟩ : ArenaWorld).arena.Peak →
        ((stepOp ArenaOp.resetOp
            ⟨NewMonotonicArena 16 1, fun _ => 0, fun _ => 16⟩).getD
          ⟨NewMonotonicArena 16 1, fun _ => 0, fun _ => 16⟩).arena.Len ≤
        ((stepOp ArenaOp.resetOp
            ⟨NewMonotonicArena 16 1, fun _ => 0, fun _ => 16⟩).getD
          ⟨NewMonotonicArena 16 1, fun _ => 0, fun _ => 16⟩).arena.Peak) ∧
      (∀ m c, (NewMonotonicArena m c).Len ≤ (NewMonotonicArena m c).Peak)) :=
  ⟨rfl, peak_monotone_and_ge_len ArenaOp.resetOp
    ⟨NewMonotonicArena 16 1, fun _ => 0, fun _ => 16⟩ rfl⟩

/-! ## Typed slice helpers (`slice.go`) -/

/-- `const growThreshold = 256`. -/
def growThreshold : Nat := 256

/-- A Go slice header at the value level: the element list (of length
`len(s)`) and the capacity of the backing storage. -/
structure GoSlice (α : Type) where
  data : List α
  cap : Nat
deriving DecidableEq, Repr

/-- The capacity loop of `growSlice`:
`for newLen > newCap { if newCap < growThreshold { newCap *= 2 } else
{ newCap += newCap / 4 } }`.  The source enters this loop only when
`cap(s) > 0`; the `newCap = 0` guard only makes the Lean recursion total and
is never reached from `growSlice`. -/
def growCap (newLen newCap : Nat) : Nat :=
  if newCap = 0 then newCap
  else if newLen ≤ newCap then newCap
  else growCap newLen (if newCap < growThreshold then newCap * 2 else newCap + newCap / 4)
termination_by newLen - newCap
decreasing_by
  rename_i h0 h1
  simp only [not_le] at h1
  split
  · omega
  · rename_i hc
    unfold growThreshold at hc
    omega

/-- `growSlice(a, s, dataLen)` at the value level.  When a fresh backing
store is needed, `AllocateSlice` (arena- or host-backed) yields a slice of
length `len(s)` and capacity `newCap`, and `copy(s2, s)` transfers the
`len(s)` elements, so the element list is unchanged and only the capacity
differs. -/
def growSlice {α : Type} (s : GoSlice α) (dataLen : Nat) : GoSlice α :=
  let newLen := s.data.length + dataLen
  let newCap := if s.cap > 0 then growCap newLen s.cap else dataLen
  if newCap = s.cap then s
  else { data := s.data, cap := newCap }

/-- `SliceAppend(a, s, data...)` for a non-nil arena: `growSlice`, then the
built-in `append`, which appends in place (capacity suffices by
`SliceAppend_len_le_cap` below, so `append` does not reallocate). -/
def SliceAppend {α : Type} (s : GoSlice α) (data : List α) : GoSlice α :=
  let s1 := growSlice s data.length
  { data := s1.data ++ data, cap := s1.cap }

lemma growCap_ge (newLen : Nat) :
    ∀ newCap, 1 ≤ newCap → newLen ≤ growCap newLen newCap := by
  have main : ∀ m newCap, newLen - newCap ≤ m → 1 ≤ newCap →
      newLen ≤ growCap newLen newCap := by
    intro m
    induction m with
    | zero =>
        intro newCap hm h
        unfold growCap
        rw [if_neg (by omega), if_pos (by omega)]
        omega
    | succ k ih =>
        intro newCap hm h
        unfold growCap
        rw [if_neg (by omega)]
        by_cases h1 : newLen ≤ newCap
        · rw [if_pos h1]
          exact h1
        · rw [if_neg h1]
          refine ih _ ?_ ?_
          · split
            · omega
            · rename_i hc
              unfold growThreshold at hc
              omega
          · split
            · omega
            · omega
  intro newCap h
  exact main (newLen - newCap) newCap (le_refl _) h

/-- After `growSlice` the capacity accommodates the append, so the built-in
`append` works in place. -/
lemma SliceAppend_len_le_cap {α : Type} (s : GoSlice α) (data : List α)
    (hwf : s.data.length ≤ s.cap) :
    (SliceAppend s data).data.length ≤ (SliceAppend s data).cap := by
  unfold SliceAppend growSlice
  by_cases hc : s.cap = 0
  · have hlen : s.data.length = 0 := by omega
    simp only [hc, gt_iff_lt, Nat.lt_irrefl, if_false]
    by_cases hd : data.length = 0
    · simp [hd, hlen]
    · rw [if_neg (by omega)]
      simp [hlen]
  · have h1 : 1 ≤ s.cap := by omega
    have hge := growCap_ge (s.data.length + data.length) s.cap h1
    simp only [gt_iff_lt, Nat.pos_of_ne_zero hc, if_true]
    split
    · rename_i heq
      simp only [List.length_append]
      omega
    · simp only [List.length_append]
      omega

/-- C5: for a non-nil arena, `SliceAppend(a, s, data)` returns a slice of
length `N + D` whose first `N` elements are `s` and next `D` elements are
`data`; its capacity is `D` when `K = 0` and otherwise the result of the
double-then-grow-by-25% loop started at `K`; and when the computed capacity
equals `K`, `growSlice` returns the original slice unchanged (the backing
storage is reused). -/
theorem SliceAppend_spec {α : Type} (s : GoSlice α) (data : List α)
    (hwf : s.data.length ≤ s.cap) :
    (SliceAppend s data).data = s.data ++ data ∧
    (SliceAppend s data).data.length = s.data.length + data.length ∧
    (SliceAppend s data).cap =
      (if s.cap = 0 then data.length
       else growCap (s.data.length + data.length) s.cap) ∧
    ((if s.cap = 0 then data.length
      else growCap (s.data.length + data.length) s.cap) = s.cap →
      growSlice s data.length = s) ∧
    (SliceAppend s data).data.length ≤ (SliceAppend s data).cap := by
  refine ⟨?_, ?_, ?_, ?_, SliceAppend_len_le_cap s data hwf⟩
  · unfold SliceAppend growSlice
    dsimp only
    split <;> split <;> rfl
  · unfold SliceAppend growSlice
    dsimp only
    split <;> split <;> simp
  · unfold SliceAppend growSlice
    dsimp only
    by_cases hc : s.cap = 0
    · simp only [hc, gt_iff_lt, Nat.lt_irrefl, if_false, eq_self_iff_true, if_true]
      split
      · rename_i heq
        omega
      · rfl
    · rw [if_pos (Nat.pos_of_ne_zero hc), if_neg hc]
      split
      · rename_i heq
        exact heq.symm
      · rfl
  · intro hcomp
    unfold growSlice
    dsimp only
    by_cases hc : s.cap = 0
    · rw [if_neg (by omega : ¬ s.cap > 0)]
      rw [if_pos hc] at hcomp
      rw [if_pos hcomp]
    · rw [if_pos (Nat.pos_of_ne_zero hc)]
      rw [if_neg hc] at hcomp
      rw [if_pos hcomp]

/-- Witness for C5 at a concrete input: `s = [1,2]` with capacity 2,
`data = [3,4]`; the capacity doubles to 4 and a fresh backing store is used. -/
theorem SliceAppend_spec_witness :
    ((2 : Nat) ≤ 2) ∧
    ((SliceAppend (GoSlice.mk [1, 2] 2) [3, 4]).data = [1, 2] ++ [3, 4] ∧
     (SliceAppend (GoSlice.mk [1, 2] 2) [3, 4]).data.length = 2 + 2 ∧
     (SliceAppend (GoSlice.mk [1, 2] 2) [3, 4]).cap =
       (if (2 : Nat) = 0 then 2 else growCap (2 + 2) 2) ∧
     ((if (2 : Nat) = 0 then 2 else growCap (2 + 2) 2) = 2 →
       growSlice (GoSlice.mk [1, 2] 2) 2 = GoSlice.mk [1, 2] 2) ∧
     (SliceAppend (GoSlice.mk [1, 2] 2) [3, 4]).data.length ≤
       (SliceAppend (GoSlice.mk [1, 2] 2) [3, 4]).cap) :=
  ⟨by decide, SliceAppend_spec (GoSlice.mk [1, 2] 2) [3, 4] (by decide)⟩

/-! ## Arena-backed byte buffer (`buffer.go`) -/

/-- `type Buffer` at the value level: the byte sequence `buf` and the offset
`off` delimiting the unread window `buf[:off]`.  Element contents do not
depend on the arena (see C5: `SliceAppend` preserves contents for any
arena), so the arena reference and the `ReadFrom` scratch slice, which no
claim touches, are not part of the value model. -/
structure Buffer where
  buf : List Nat
  off : Nat
deriving DecidableEq, Repr

/-- `NewArenaBuffer`: `buf = nil`, `off = 0`. -/
def NewArenaBuffer : Buffer := { buf := [], off := 0 }

/-- `Buffer.Write(p)`: no-op when `len(p) = 0`; otherwise append `p` to
`buf` (through `SliceAppend`) and set `off = len(buf)`.  Returns the buffer
after the call and `n = len(p)`. -/
def Buffer.Write (b : Buffer) (p : List Nat) : Buffer × Nat :=
  if p.length = 0 then (b, 0)
  else
    let buf := b.buf ++ p
    ({ buf := buf, off := buf.length }, p.length)

/-- `Buffer.Read(p)`: if `off = 0`, return `(0, EOF)` with `p` untouched.
Otherwise `n = copy(p, buf[:off])` copies `min (len p) off` bytes into `p`,
EOF accompanies the count when `n < len(p)`, then
`copy(b.buf, b.buf[n:b.off])` shifts the remaining unread bytes to the front
and `off` decreases by `n`.  Result: contents of `p` after the call, `n`,
the EOF flag, and the buffer after the call. -/
def Buffer.Read (b : Buffer) (p : List Nat) : List Nat × Nat × Bool × Buffer :=
  if b.off = 0 then (p, 0, true, b)
  else
    let n := min p.length b.off
    let p1 := (b.buf.take b.off).take n ++ p.drop n
    let eof := decide (n < p.length)
    let buf1 := (b.buf.drop n).take (b.off - n) ++ b.buf.drop (b.off - n)
    (p1, n, eof, { buf := buf1, off := b.off - n })

/-- `Buffer.Len`: the size of the unread window. -/
def Buffer.Len (b : Buffer) : Nat := b.off

/-- `Buffer.Truncate(n)`: `none` models the
`panic("arena: truncation out of range")` when `n < 0 || n > b.off`;
otherwise `off` is set to `n`. -/
def Buffer.Truncate (b : Buffer) (n : Int) : Option Buffer :=
  if n < 0 ∨ (b.off : Int) < n then none
  else some { b with off := n.toNat }

/-- C6: writing a byte sequence `bs` into an empty buffer and then reading
into a destination of length `len(bs)` yields exactly `bs` and leaves the
buffer empty (`Len() = 0`). -/
theorem write_read_roundtrip (bs p0 : List Nat) (hlen : p0.length = bs.length) :
    ((NewArenaBuffer.Write bs).1.Read p0).1 = bs ∧
    ((NewArenaBuffer.Write bs).1.Read p0).2.2.2.Len = 0 := by
  by_cases hb : bs.length = 0
  · have hbs : bs = [] := List.eq_nil_of_length_eq_zero hb
    have hp0 : p0 = [] := List.eq_nil_of_length_eq_zero (by omega)
    subst hbs
    subst hp0
    constructor <;> rfl
  · unfold Buffer.Write
    rw [if_neg hb]
    dsimp only
    unfold Buffer.Read
    simp only [NewArenaBuffer, List.nil_append]
    rw [if_neg hb]
    dsimp only
    rw [hlen, Nat.min_self]
    constructor
    · simp [List.take_length, List.drop_length, hlen]
    · simp [Buffer.Len]

/-- Witness for C6 at a concrete input: `bs = [1,2,3]`, destination
`p0 = [9,9,9]`. -/
theorem write_read_roundtrip_witness :
    ([9, 9, 9] : List Nat).length = ([1, 2, 3] : List Nat).length ∧
    (((NewArenaBuffer.Write [1, 2, 3]).1.Read [9, 9, 9]).1 = [1, 2, 3] ∧
     ((NewArenaBuffer.Write [1, 2, 3]).1.Read [9, 9, 9]).2.2.2.Len = 0) :=
  ⟨by decide, write_read_roundtrip [1, 2, 3] [9, 9, 9] (by decide)⟩

/-- C7: `Truncate(n)` panics exactly when `n < 0` or `n > Len()`; otherwise
it leaves the unread window equal to the first `n` bytes of the previous
unread window and changes nothing else (`buf` is untouched). -/
theorem Truncate_spec (b : Buffer) (n : Int) :
    (b.Truncate n = none ↔ (n < 0 ∨ (b.off : Int) < n)) ∧
    (∀ b2, b.Truncate n = some b2 →
      b2.buf = b.buf ∧ b2.off = n.toNat ∧
      b2.buf.take b2.off = (b.buf.take b.off).take n.toNat) := by
  constructor
  · unfold Buffer.Truncate
    split
    · rename_i hc
      simp [hc]
    · rename_i hc
      simp [hc]
  · intro b2 hb2
    unfold Buffer.Truncate at hb2
    split at hb2
    · simp at hb2
    · rename_i hc
      simp only [Option.some.injEq] at hb2
      subst hb2
      refine ⟨rfl, rfl, ?_⟩
      dsimp only
      rw [List.take_take]
      congr 1
      omega

/-- Witness for C7 at a concrete input: `Truncate(2)` on a buffer whose
unread window is `[1,2,3]`. -/
theorem Truncate_spec_witness :
    (Buffer.mk [1, 2, 3] 3).Truncate 2 = some (Buffer.mk [1, 2, 3] 2) ∧
    ((Buffer.mk [1, 2, 3] 2).buf = (Buffer.mk [1, 2, 3] 3).buf ∧
     (Buffer.mk [1, 2, 3] 2).off = (2 : Int).toNat ∧
     (Buffer.mk [1, 2, 3] 2).buf.take (Buffer.mk [1, 2, 3] 2).off =
       ((Buffer.mk [1, 2, 3] 3).buf.take (Buffer.mk [1, 2, 3] 3).off).take
         (2 : Int).toNat) :=
  ⟨by decide,
   (Truncate_spec (Buffer.mk [1, 2, 3] 3) 2).2 (Buffer.mk [1, 2, 3] 2) (by decide)⟩

/-! ## Arena pool (`pool.go`) -/

/-- `type arenaPoolItemSize`: the rolling statistic for one workload key. -/
structure arenaPoolItemSize where
  count : Nat
  totalBytes : Nat
deriving DecidableEq, Repr

/-- `type PoolItem`. -/
structure PoolItem where
  arena : monotonicArena
  key : Nat
deriving Repr

/-- `type Pool` at the value level.  Weak pointers are modelled by the items
themselves (GC reclamation is a runtime event outside the embedding);
`sizes` is the per-key statistics map. -/
structure Pool where
  pool : List PoolItem
  sizes : Nat → Option arenaPoolItemSize

/-- The statistic update performed under lock in `Pool.Release` and
`Pool.ReleaseMany`: collapse at 50 samples (`count←1`,
`totalBytes←totalBytes/50`), then absorb the new peak (`count++`,
`totalBytes += peak`); a missing entry becomes `(1, peak)`. -/
def updateStat (cur : Option arenaPoolItemSize) (peak : Nat) : arenaPoolItemSize :=
  match cur with
  | some sz =>
      let sz1 := if sz.count = 50 then
          { count := 1, totalBytes := sz.totalBytes / 50 } else sz
      { count := sz1.count + 1, totalBytes := sz1.totalBytes + peak }
  | none => { count := 1, totalBytes := peak }

/-- `Pool.Release(item)`: read the peak, reset the arena, update the per-key
statistic, zero the item's key, append the item to the pool tail. -/
def Pool.Release (p : Pool) (item : PoolItem) : Pool :=
  let peak := item.arena.Peak
  let item1 : PoolItem := { item with arena := item.arena.Reset }
  let sizes1 := fun k =>
    if k = item1.key then some (updateStat (p.sizes item1.key) peak) else p.sizes k
  let item2 : PoolItem := { item1 with key := 0 }
  { pool := p.pool ++ [item2], sizes := sizes1 }

/-- `Pool.ReleaseMany(items)`: the source duplicates the body of `Release`
inside one loop under a single lock acquisition; the model mirrors that
duplicated body. -/
def Pool.ReleaseMany (p : Pool) : List PoolItem → Pool
  | [] => p
  | item :: rest =>
      let peak := item.arena.Peak
      let item1 : PoolItem := { item with arena := item.arena.Reset }
      let sizes1 := fun k =>
        if k = item1.key then some (updateStat (p.sizes item1.key) peak) else p.sizes k
      let item2 : PoolItem := { item1 with key := 0 }
      Pool.ReleaseMany { pool := p.pool ++ [item2], sizes := sizes1 } rest

/-- `Pool.getArenaSize(id)`: `totalBytes / count` when a statistic exists,
else 1 MiB. -/
def Pool.getArenaSize (p : Pool) (id : Nat) : Nat :=
  match p.sizes id with
  | some sz => sz.totalBytes / sz.count
  | none => 1024 * 1024

/-- C8: `Release` rewrites the statistic for the item's key through
`updateStat` with the observed peak; `updateStat` maps a missing entry to
`(1, peak)`, collapses a full entry `(50, t)` to `(1, t/50)` before
absorbing the sample (yielding `(2, t/50 + peak)`), and otherwise
increments the count and adds the peak; `getArenaSize` returns
`totalBytes / count` for an existing statistic and 1 MiB (1048576 bytes)
otherwise. -/
theorem pool_stat_update_and_size (p : Pool) (item : PoolItem)
    (c t pk k : Nat) (l : List PoolItem) (g : Nat → Option arenaPoolItemSize) :
    ((p.Release item).sizes item.key =
      some (updateStat (p.sizes item.key) item.arena.Peak)) ∧
    updateStat none pk = ⟨1, pk⟩ ∧
    updateStat (some ⟨c, t⟩) pk =
      (if c = 50 then ⟨2, t / 50 + pk⟩ else ⟨c + 1, t + pk⟩) ∧
    (Pool.mk l (fun x => if x = k then some ⟨c + 1, t⟩ else g x)).getArenaSize k =
      t / (c + 1) ∧
    (Pool.mk l (fun x => if x = k then none else g x)).getArenaSize k =
      1024 * 1024 := by
  refine ⟨?_, rfl, ?_, ?_, ?_⟩
  · unfold Pool.Release
    dsimp only
    rw [if_pos rfl]
  · unfold updateStat
    dsimp only
    split
    · rename_i hc
      simp [hc]
    · rfl
  · unfold Pool.getArenaSize
    dsimp only
    rw [if_pos rfl]
  · unfold Pool.getArenaSize
    dsimp only
    rw [if_pos rfl]

/-- C9: `ReleaseMany(items)` produces exactly the pool state of folding
`Release` over the items in order (same pool list, same statistics map,
items re-inserted with key 0 and arena reset). -/
theorem ReleaseMany_eq_fold_Release (p : Pool) (items : List PoolItem) :
    p.ReleaseMany items = items.foldl Pool.Release p := by
  induction items generalizing p with
  | nil => rfl
  | cons item rest ih =>
      simp only [Pool.ReleaseMany, List.foldl_cons]
      rw [ih]
      rfl

/-! ## Typed helpers and the concurrent wrapper (`arena.go`, `slice.go`,
`concurrent_arena.go`) -/

/-- An arena seen through the `Arena` interface by the typed helpers: its
`Alloc(size, alignment)` method, returning an address with `0` standing for
the nil pointer.  `Option AllocFn` is the possibly-nil interface value the
helpers receive. -/
def AllocFn : Type := Nat → Nat → Nat

/-- Where the storage behind a typed helper's result lives. -/
inductive AllocSource where
  | arenaMem (addr : Nat)
  | host
deriving DecidableEq, Repr

/-- `Allocate[T](a)`: if the arena is non-nil and its `Alloc` returns a
non-nil pointer, the result points into the arena; otherwise fall back to
`new(T)`, a zero-initialized host allocation that is never nil. -/
def Allocate (a : Option AllocFn) (sizeT alignT : Nat) : AllocSource :=
  match a with
  | some f => if f sizeT alignT ≠ 0 then .arenaMem (f sizeT alignT) else .host
  | none => .host

/-- `AllocateSlice[T](a, len, cap)`: request `sizeof(T) * cap` bytes from a
non-nil arena; on a non-nil pointer, `unsafe.Slice(ptr, cap)[:len]`;
otherwise `make([]T, len, cap)`.  Result: storage source, slice length,
slice capacity. -/
def AllocateSlice (a : Option AllocFn) (sizeT alignT len cap : Nat) :
    AllocSource × Nat × Nat :=
  match a with
  | some f =>
      if f (sizeT * cap) alignT ≠ 0 then
        (.arenaMem (f (sizeT * cap) alignT), len, cap)
      else (.host, len, cap)
  | none => (.host, len, cap)

/-- `concurrentArena.Alloc`: under the mutex, return nil when the inner
arena is nil, otherwise delegate to it. -/
def concurrentAlloc (inner : Option AllocFn) : AllocFn :=
  fun size alignment =>
    match inner with
    | none => 0
    | some f => f size alignment

/-- C10: the typed helpers never produce a nil result even when a non-nil
arena's `Alloc` returns the nil pointer: `Allocate` then falls back to a
host `new(T)` and `AllocateSlice` to a host `make([]T, len, cap)` with the
requested length and capacity; an arena-backed result always carries a
non-nil address; and the fallback fires in particular for the concurrent
wrapper around a nil inner arena, i.e. it is not limited to the arena
reference itself being nil. -/
theorem typed_helpers_fallback (f g : AllocFn) (sizeT alignT len cap : Nat)
    (hnil : f sizeT alignT = 0) (hnil2 : f (sizeT * cap) alignT = 0) :
    Allocate (some f) sizeT alignT = AllocSource.host ∧
    AllocateSlice (some f) sizeT alignT len cap = (AllocSource.host, len, cap) ∧
    (∀ q, Allocate (some g) sizeT alignT = AllocSource.arenaMem q → q ≠ 0) ∧
    (∀ a, (AllocateSlice a sizeT alignT len cap).2.1 = len ∧
          (AllocateSlice a sizeT alignT len cap).2.2 = cap) ∧
    (∀ s t, concurrentAlloc none s t = 0) ∧
    Allocate (some (concurrentAlloc none)) sizeT alignT = AllocSource.host ∧
    AllocateSlice (some (concurrentAlloc none)) sizeT alignT len cap =
      (AllocSource.host, len, cap) := by
  refine ⟨?_, ?_, ?_, ?_, fun s t => rfl, ?_, ?_⟩
  · simp [Allocate, hnil]
  · simp [AllocateSlice, hnil2]
  · intro q hq
    unfold Allocate at hq
    dsimp only at hq
    split at hq
    · rename_i hne
      simp only [AllocSource.arenaMem.injEq] at hq
      subst hq
      exact hne
    · simp at hq
  · intro a
    cases a with
    | none => exact ⟨rfl, rfl⟩
    | some h =>
        unfold AllocateSlice
        dsimp only
        constructor <;> split <;> rfl
  · simp [Allocate, concurrentAlloc]
  · simp [AllocateSlice, concurrentAlloc]

/-- Witness for C10 at a concrete input: the constant-nil allocator
(`f = fun _ _ => 0`), an arbitrary non-nil allocator `g = fun _ _ => 8`,
`sizeof(T) = 8`, `alignof(T) = 8`, `len = 2`, `cap = 5`. -/
theorem typed_helpers_fallback_witness :
    ((fun _ _ => 0 : AllocFn) 8 8 = 0) ∧
    ((fun _ _ => 0 : AllocFn) (8 * 5) 8 = 0) ∧
    (Allocate (some (fun _ _ => 0)) 8 8 = AllocSource.host ∧
     AllocateSlice (some (fun _ _ => 0)) 8 8 2 5 = (AllocSource.host, 2, 5) ∧
     (∀ q, Allocate (some (fun _ _ => 8)) 8 8 = AllocSource.arenaMem q → q ≠ 0) ∧
     (∀ a, (AllocateSlice a 8 8 2 5).2.1 = 2 ∧
           (AllocateSlice a 8 8 2 5).2.2 = 5) ∧
     (∀ s t, concurrentAlloc none s t = 0) ∧
     Allocate (some (concurrentAlloc none)) 8 8 = AllocSource.host ∧
     AllocateSlice (some (concurrentAlloc none)) 8 8 2 5 =
       (AllocSource.host, 2, 5)) :=
  ⟨rfl, rfl,
   typed_helpers_fallback (fun _ _ => 0) (fun _ _ => 8) 8 8 2 5 rfl rfl⟩
